import Mathlib

/-!
Shallow embedding of the Adila fairness-reranking pipeline (`src/main.py`,
class `Reranking`) and proofs about it.

Modelling conventions:
* Python floats are modelled as rationals (`ℚ`); the arithmetic the pipeline
  performs on them is mean, one multiplication, comparisons and divisions, all
  of which are exact here.
* The scipy sparse membership matrix `teamsvecs['member']` is modelled as `Mat`:
  an explicit column count plus a list of rows (entry lists); `shape[1]` is
  `ncols` and a column sum is `memberCount`.
* Python exceptions are the inductive `PyExc`; a function that can raise
  returns `Except PyExc α`.  Python list indexing `xs[i]` (which accepts
  negative indices down to `-len(xs)` and raises `IndexError` otherwise) is
  `pyIndex`.
* The external reranking oracle `reranking.rerank(labels, ratios, k_max,
  algorithm)` and the metric oracle `reranking.ndkl` are opaque parameters.
* File writes are observability: the orchestrator model records which stages
  ran fresh (every persisted table write in the source happens inside a stage
  function, so an empty executed-stage list means no table is touched).
-/

/-- Popularity label of a candidate: the strings `'p'` / `'np'` in the source. -/
inductive Label where
  | p : Label
  | np : Label
deriving DecidableEq, Repr

/-- Python exceptions that the embedded pipeline can raise or catch. -/
inductive PyExc where
  | fileNotFoundError : PyExc
  | eofError : PyExc
  | parserError : PyExc
  | unpicklingError : PyExc
  | zeroDivisionError : PyExc
  | indexError : PyExc
  | valueError : PyExc
deriving DecidableEq, Repr

instance {ε α : Type} [DecidableEq ε] [DecidableEq α] : DecidableEq (Except ε α) := fun x y =>
  match x, y with
  | .ok a, .ok b => if h : a = b then .isTrue (by rw [h]) else .isFalse (by simp [h])
  | .error a, .error b => if h : a = b then .isTrue (by rw [h]) else .isFalse (by simp [h])
  | .ok _, .error _ => .isFalse (by simp)
  | .error _, .ok _ => .isFalse (by simp)

/-- Python list indexing `xs[i]`: non-negative indices below the length, or
negative indices from `-len(xs)`, succeed; anything else raises `IndexError`. -/
def pyIndex {α : Type} (xs : List α) (i : Int) : Except PyExc α :=
  if h : 0 ≤ i ∧ i < (xs.length : Int) then
    .ok (xs.get ⟨i.toNat, by omega⟩)
  else if h2 : -(xs.length : Int) ≤ i ∧ i < 0 then
    .ok (xs.get ⟨(i + (xs.length : Int)).toNat, by omega⟩)
  else
    .error .indexError

/-- The membership matrix `teamsvecs['member']`: rows are teams, columns are
candidates.  `ncols` is carried explicitly (scipy knows `shape[1]` even with
no rows). -/
structure Mat where
  ncols : Nat
  rows : List (List Nat)
deriving DecidableEq, Repr

/-- Column sum of column `c`: how many teams candidate `c` participated in
(`col_sums` entry in `get_stats`). -/
def memberCount (m : Mat) (c : Nat) : Nat :=
  (m.rows.map (fun r => r.getD c 0)).sum

/-- The vector `col_sums` of `get_stats`: one participation count per column. -/
def memberCounts (m : Mat) : List Nat :=
  (List.range m.ncols).map (memberCount m)

/-- The mean `col_sums.mean()` of `get_stats` as a rational. -/
def avgOf (m : Mat) : ℚ :=
  ((memberCounts m).sum : ℚ) / (m.ncols : ℚ)

/-- The per-candidate labelling rule of `get_stats`:
`'p' if threshold <= nteam_member else 'np'`. -/
def labelOf (threshold : ℚ) (n : Nat) : Label :=
  if threshold ≤ (n : ℚ) then Label.p else Label.np

/-- The label list of `get_stats`, one label per column of the matrix, built
from the threshold `coefficient * avg`. -/
def labelsOf (m : Mat) (coefficient : ℚ) : List Label :=
  (memberCounts m).map (labelOf (coefficient * avgOf m))

/-- Insert into a descending-sorted list, keeping it descending. -/
def insertDesc (x : Nat) : List Nat → List Nat
  | [] => [x]
  | y :: ys => if y < x then x :: y :: ys else y :: insertDesc x ys

/-- The source's `sorted(col_sums, reverse=True)`. -/
def sortDesc (xs : List Nat) : List Nat := xs.foldr insertDesc []

/-- The `stats` dictionary produced by `Reranking.get_stats`. -/
structure Stats where
  nmembers : Nat
  histogram : List Nat
  avg : ℚ
  ratio_p : ℚ
  ratio_np : ℚ
deriving DecidableEq, Repr

namespace Reranking

/-- Embedding of `Reranking.get_stats`: column sums, descending histogram,
mean, threshold `coefficient * avg`, per-candidate labels, and the realized
popularity ratio.  With zero columns the Python code raises
`ZeroDivisionError` at `labels.count('p') / stats['*nmembers']` (this is the
failure the spec names `EmptyInputError`); with at least one column it
succeeds. -/
def get_stats (m : Mat) (coefficient : ℚ) : Except PyExc (Stats × List Label) :=
  if m.ncols = 0 then .error .zeroDivisionError
  else
    .ok (⟨m.ncols, sortDesc (memberCounts m), avgOf m,
          ((labelsOf m coefficient).count Label.p : ℚ) / (m.ncols : ℚ),
          1 - ((labelsOf m coefficient).count Label.p : ℚ) / (m.ncols : ℚ)⟩,
         labelsOf m coefficient)

end Reranking

/-! Helper lemmas about `get_stats`. -/

theorem memberCounts_length (m : Mat) : (memberCounts m).length = m.ncols := by
  simp [memberCounts]

theorem get_stats_ok (m : Mat) (coefficient : ℚ) (hm : m.ncols ≠ 0) :
    Reranking.get_stats m coefficient =
      .ok (⟨m.ncols, sortDesc (memberCounts m), avgOf m,
            ((labelsOf m coefficient).count Label.p : ℚ) / (m.ncols : ℚ),
            1 - ((labelsOf m coefficient).count Label.p : ℚ) / (m.ncols : ℚ)⟩,
           labelsOf m coefficient) := by
  simp [Reranking.get_stats, hm]

theorem labelOf_eq_p_iff (threshold : ℚ) (n : Nat) :
    labelOf threshold n = Label.p ↔ threshold ≤ (n : ℚ) := by
  unfold labelOf
  split <;> simp_all

theorem labelsOf_getD (m : Mat) (coefficient : ℚ) (c : Nat) (hc : c < m.ncols) :
    (labelsOf m coefficient).getD c Label.np =
      labelOf (coefficient * avgOf m) (memberCount m c) := by
  have hlen : c < (memberCounts m).length := by rw [memberCounts_length]; exact hc
  unfold labelsOf
  rw [List.getD_eq_getElem?_getD, List.getElem?_map, List.getElem?_eq_getElem hlen]
  simp [memberCounts]

theorem get_stats_label_iff (m : Mat) (coefficient : ℚ) (s : Stats) (labels : List Label)
    (c : Nat) (h : Reranking.get_stats m coefficient = .ok (s, labels)) (hc : c < m.ncols) :
    (labels.getD c Label.np = Label.p ↔ coefficient * avgOf m ≤ (memberCount m c : ℚ)) := by
  have hm : m.ncols ≠ 0 := by omega
  rw [get_stats_ok m coefficient hm] at h
  have hlabels : labels = labelsOf m coefficient := by
    injection h with h1
    injection h1 with _ h2
    exact h2.symm
  subst hlabels
  rw [labelsOf_getD m coefficient c hc]
  exact labelOf_eq_p_iff _ _

theorem get_stats_ratio (m : Mat) (coefficient : ℚ) (s : Stats) (labels : List Label)
    (h : Reranking.get_stats m coefficient = .ok (s, labels)) :
    s.ratio_p = (labels.count Label.p : ℚ) / (m.ncols : ℚ) ∧ s.ratio_np = 1 - s.ratio_p := by
  by_cases hm : m.ncols = 0
  · simp [Reranking.get_stats, hm] at h
  · rw [get_stats_ok m coefficient hm] at h
    injection h with h1
    injection h1 with hs hl
    subst hs; subst hl
    exact ⟨rfl, rfl⟩

/-- C7: `get_stats` fails (the spec's `EmptyInputError`; in the code an
uncaught `ZeroDivisionError` at the division `labels.count('p') /
stats['*nmembers']`) exactly when the membership matrix has zero columns, and
succeeds otherwise. -/
theorem C7_get_stats_fails_iff_zero_columns (m : Mat) (coefficient : ℚ) :
    (m.ncols = 0 → Reranking.get_stats m coefficient = .error .zeroDivisionError) ∧
    (m.ncols ≠ 0 → ∃ v, Reranking.get_stats m coefficient = .ok v) := by
  constructor
  · intro hm
    simp [Reranking.get_stats, hm]
  · intro hm
    exact ⟨_, get_stats_ok m coefficient hm⟩

/-- Witness for C7 at a concrete zero-column matrix and a concrete one-column
matrix. -/
theorem C7_witness :
    ((Mat.mk 0 []).ncols = 0 ∧
      Reranking.get_stats (Mat.mk 0 []) 1 = .error .zeroDivisionError) ∧
    ((Mat.mk 1 [[1]]).ncols ≠ 0 ∧
      ∃ v, Reranking.get_stats (Mat.mk 1 [[1]]) 1 = .ok v) :=
  ⟨⟨by decide, (C7_get_stats_fails_iff_zero_columns (Mat.mk 0 []) 1).1 (by decide)⟩,
   ⟨by decide, (C7_get_stats_fails_iff_zero_columns (Mat.mk 1 [[1]]) 1).2 (by decide)⟩⟩

/-- The synthetic matrix of the ratio-sensitivity example: 10 teams, 2
candidates, candidate 0 participates in 8 teams and candidate 1 in 2. -/
def exMat : Mat :=
  ⟨2, [[1, 1], [1, 1], [1, 0], [1, 0], [1, 0], [1, 0], [1, 0], [1, 0], [0, 0], [0, 0]]⟩

theorem exMat_memberCounts : memberCounts exMat = [8, 2] := by decide

theorem exMat_avg : avgOf exMat = 5 := by
  rw [avgOf, exMat_memberCounts]
  norm_num [exMat]

theorem exMat_labels : labelsOf exMat 1 = [Label.p, Label.np] := by
  rw [labelsOf, exMat_memberCounts, exMat_avg]
  norm_num [labelOf]

theorem exMat_stats :
    Reranking.get_stats exMat 1 =
      .ok (⟨2, [8, 2], 5, 1/2, 1/2⟩, [Label.p, Label.np]) := by
  rw [get_stats_ok exMat 1 (by decide), exMat_labels, exMat_memberCounts, exMat_avg]
  have h0 : List.count Label.p [Label.np] = 0 := by decide
  norm_num [sortDesc, insertDesc, exMat, h0]

/-- C9: `get_stats` labels a candidate popular iff its participation count is
at least `coefficient * avg`, evaluated per candidate independently, reports
`popularity_ratio` as the per-candidate fraction `(count of p) / nmembers`
and its complement, and on the synthetic 2-candidate 10-team example with
coefficient 1 yields labels `[p, np]` and ratio `(1/2, 1/2)`. -/
theorem C9_popularity_labels_and_ratio :
    (∀ (m : Mat) (coefficient : ℚ) (s : Stats) (labels : List Label) (c : Nat),
      Reranking.get_stats m coefficient = .ok (s, labels) → c < m.ncols →
        ((labels.getD c Label.np = Label.p ↔
            coefficient * avgOf m ≤ (memberCount m c : ℚ)) ∧
         s.ratio_p = (labels.count Label.p : ℚ) / (m.ncols : ℚ) ∧
         s.ratio_np = 1 - s.ratio_p)) ∧
    Reranking.get_stats exMat 1 =
      .ok (⟨2, [8, 2], 5, 1/2, 1/2⟩, [Label.p, Label.np]) := by
  constructor
  · intro m coefficient s labels c h hc
    exact ⟨get_stats_label_iff m coefficient s labels c h hc,
           get_stats_ratio m coefficient s labels h⟩
  · exact exMat_stats

/-- Witness for C9's universally quantified part, instantiated on the
synthetic example matrix. -/
theorem C9_witness :
    (Reranking.get_stats exMat 1 =
        .ok (⟨2, [8, 2], 5, 1/2, 1/2⟩, [Label.p, Label.np]) ∧ 0 < exMat.ncols) ∧
    (([Label.p, Label.np] : List Label).getD 0 Label.np = Label.p ↔
      1 * avgOf exMat ≤ (memberCount exMat 0 : ℚ)) :=
  ⟨⟨exMat_stats, by decide⟩,
   (C9_popularity_labels_and_ratio.1 exMat 1 ⟨2, [8, 2], 5, 1/2, 1/2⟩
      [Label.p, Label.np] 0 exMat_stats (by decide)).1⟩

/-! ## The reranking engine: `Reranking.rerank` -/

/-- The desired popular / non-popular ratio pair passed to the oracles. -/
structure Ratios where
  p : ℚ
  np : ℚ
deriving DecidableEq, Repr

/-- Type of the external reranking oracle `reranking.rerank(labels, ratios,
k_max, algorithm)`: it receives the label sequence in score-sorted order and
returns a list of positions into that sorted order. -/
abbrev Oracle := List Label → Ratios → Nat → String → List Int

/-- Type of the external fairness-metric oracle `reranking.ndkl`. -/
abbrev NdklOracle := List Label → Ratios → ℚ

/-- Effectful map over a list in the `Except` monad, stopping at the first
raised exception, as a Python loop or comprehension does. -/
def mapME {α β : Type} (f : α → Except PyExc β) : List α → Except PyExc (List β)
  | [] => .ok []
  | x :: xs => do
    let y ← f x
    let ys ← mapME f xs
    pure (y :: ys)

/-- The list `member_popularity_probs` before sorting:
`[(m, labels[m], float(team[m])) for m in range(len(team))]`.  The lookup
`labels[m]` is Python indexing and can raise `IndexError` when the label list
is shorter than the team row. -/
def buildTable (labels : List Label) (team : List ℚ) :
    Except PyExc (List (Nat × Label × ℚ)) :=
  mapME (fun (m : Nat) =>
    (pyIndex labels (m : Int)).map (fun lab => (m, lab, team.getD m 0)))
    (List.range team.length)

/-- Total description of `member_popularity_probs` when the label list is long
enough (out-of-range label lookups padded with `np`; equal to `buildTable`
under the length hypothesis, see `buildTable_ok`). -/
def tableOf (labels : List Label) (team : List ℚ) : List (Nat × Label × ℚ) :=
  (List.range team.length).map (fun m => (m, labels.getD m Label.np, team.getD m 0))

/-- Stable insertion for the score-descending sort: an element is placed
before the first entry whose score is not larger, matching Python's stable
`list.sort(key=score, reverse=True)`. -/
def insertByScore (x : Nat × Label × ℚ) :
    List (Nat × Label × ℚ) → List (Nat × Label × ℚ)
  | [] => [x]
  | y :: ys => if x.2.2 < y.2.2 then y :: insertByScore x ys else x :: y :: ys

/-- The source's `member_popularity_probs.sort(key=lambda x: x[2], reverse=True)`. -/
def sortByScoreDesc (xs : List (Nat × Label × ℚ)) : List (Nat × Label × ℚ) :=
  xs.foldr insertByScore []

/-- The label sequence handed to the reranking oracle for one team: the labels
of `member_popularity_probs` in score-descending order. -/
def sortedLabels (labels : List Label) (team : List ℚ) : List Label :=
  (sortByScoreDesc (tableOf labels team)).map (fun t => t.2.1)

/-- One iteration of the `for team in preds` loop of `Reranking.rerank`:
build and sort the table, call the oracle, then look the returned positions
up in the sorted table to collect `reranked_probs`
(`member_popularity_probs[m][2] for m in reranked_idx`, Python indexing).
The emitted index row is `reranked_idx` itself, exactly as in the source. -/
def rerankTeam (labels : List Label) (ratios : Ratios) (oracle : Oracle)
    (algorithm : String) (kmax : Nat) (team : List ℚ) :
    Except PyExc (List Int × List ℚ) :=
  match buildTable labels team with
  | .error e => .error e
  | .ok table =>
    let sorted := sortByScoreDesc table
    let rerankedIdx := oracle (sorted.map (fun t => t.2.1)) ratios kmax algorithm
    match mapME (fun m => (pyIndex sorted m).map (fun t => t.2.2)) rerankedIdx with
    | .error e => .error e
    | .ok rerankedProbs => .ok (rerankedIdx, rerankedProbs)

/-- Embedding of `Reranking.rerank`: the per-team loop above over all
prediction rows, collecting the `idx` and `probs` lists. -/
def Reranking.rerank (preds : List (List ℚ)) (labels : List Label) (ratios : Ratios)
    (oracle : Oracle) (algorithm : String) (kmax : Nat) :
    Except PyExc (List (List Int) × List (List ℚ)) :=
  (mapME (rerankTeam labels ratios oracle algorithm kmax) preds).map
    (fun rows => (rows.map Prod.fst, rows.map Prod.snd))

/-- Modelled from the spec: the id sequence the spec says `rerank` emits for a
team - each oracle-returned position mapped back to the original candidate id
through the score-sorted table. -/
def specMappedIds (labels : List Label) (team : List ℚ) (positions : List Int) :
    Except PyExc (List Nat) :=
  mapME (fun m =>
    (pyIndex (sortByScoreDesc (tableOf labels team)) m).map (fun t => t.1)) positions

/-- The concrete oracle of the C1 counterexample: it keeps the first two
sorted positions, in order. -/
def oracleC1 : Oracle := fun _ _ _ _ => [0, 1]

/-- C1: on the team `[1, 9]` (candidate 1 has the higher score) the sorted
table is `[(1, p, 9), (0, p, 1)]` and the oracle returns positions `[0, 1]`.
The code emits `idx = [[0, 1]]` - the oracle's positions into the sorted
order - paired with the scores `[[9, 1]]` of the candidates at those sorted
positions, whereas mapping the positions back through the sorted table (what
the claim and the spec require, and what the downstream consumers
`eval_fairness` and `reranked_preds` assume when they index labels and matrix
columns with these values) gives the original candidate ids `[1, 0]`.  The
emitted row differs from the required one, so the id/score pairing is
internally inconsistent: candidate 0 is reported with candidate 1's score. -/
theorem C1_rerank_emits_sorted_positions_not_ids :
    Reranking.rerank [[1, 9]] [Label.p, Label.p] ⟨1, 0⟩ oracleC1 "det_cons" 2
      = .ok ([[0, 1]], [[9, 1]]) ∧
    specMappedIds [Label.p, Label.p] [1, 9] [0, 1] = .ok [1, 0] ∧
    ([[0, 1]] : List (List Int)) ≠ [[1, 0]] := by
  refine ⟨?_, ?_, by decide⟩
  · decide
  · decide

/-! ## Lemmas on `pyIndex`, `mapME` and the sorted table -/

theorem pyIndex_nat {α : Type} (xs : List α) (n : Nat) (h : n < xs.length) :
    pyIndex xs (n : Int) = .ok (xs.get ⟨n, h⟩) := by
  unfold pyIndex
  rw [dif_pos ⟨by omega, by omega⟩]
  simp

theorem pyIndex_ok_iff {α : Type} (xs : List α) (i : Int) :
    (∃ v, pyIndex xs i = .ok v) ↔
      (-(xs.length : Int) ≤ i ∧ i < (xs.length : Int)) := by
  unfold pyIndex
  by_cases h : 0 ≤ i ∧ i < (xs.length : Int)
  · rw [dif_pos h]
    exact ⟨fun _ => ⟨by omega, h.2⟩, fun _ => ⟨_, rfl⟩⟩
  · rw [dif_neg h]
    by_cases h2 : -(xs.length : Int) ≤ i ∧ i < 0
    · rw [dif_pos h2]
      exact ⟨fun _ => ⟨h2.1, by omega⟩, fun _ => ⟨_, rfl⟩⟩
    · rw [dif_neg h2]
      constructor
      · rintro ⟨v, hv⟩
        exact absurd hv (by simp)
      · intro hr
        omega

theorem pyIndex_error {α : Type} (xs : List α) (i : Int)
    (h : ¬(-(xs.length : Int) ≤ i ∧ i < (xs.length : Int))) :
    pyIndex xs i = .error .indexError := by
  unfold pyIndex
  rw [dif_neg (by omega), dif_neg (by omega)]

theorem exceptMap_ok_iff {α β : Type} (x : Except PyExc α) (f : α → β) :
    (∃ v, x.map f = .ok v) ↔ ∃ w, x = .ok w := by
  cases x <;> simp [Except.map]

theorem exceptMap_error_iff {α β : Type} (x : Except PyExc α) (f : α → β) (e : PyExc) :
    x.map f = .error e ↔ x = .error e := by
  cases x <;> simp [Except.map]

theorem mapME_ok_of {α β : Type} (f : α → Except PyExc β) (g : α → β) (l : List α)
    (h : ∀ a ∈ l, f a = .ok (g a)) : mapME f l = .ok (l.map g) := by
  induction l with
  | nil => rfl
  | cons x xs ih =>
    have hx := h x (by simp)
    have hxs := ih (fun a ha => h a (by simp [ha]))
    simp [mapME, hx, hxs]
    rfl

theorem mapME_ok_iff {α β : Type} (f : α → Except PyExc β) (l : List α) :
    (∃ v, mapME f l = .ok v) ↔ ∀ a ∈ l, ∃ w, f a = .ok w := by
  induction l with
  | nil => simp [mapME]
  | cons x xs ih =>
    constructor
    · rintro ⟨v, hv⟩ a ha
      cases hfx : f x with
      | error e => simp [mapME, hfx] at hv; cases hv
      | ok y =>
        cases hxs : mapME f xs with
        | error e => simp [mapME, hfx, hxs] at hv; cases hv
        | ok ys =>
          rw [List.mem_cons] at ha
          rcases ha with rfl | ha
          · exact ⟨y, hfx⟩
          · exact (ih.mp ⟨ys, hxs⟩) a ha
    · intro h
      rcases h x (by simp) with ⟨y, hy⟩
      rcases ih.mpr (fun a ha => h a (by simp [ha])) with ⟨ys, hys⟩
      exact ⟨y :: ys, by simp [mapME, hy, hys]; rfl⟩

theorem mapME_error {α β : Type} (f : α → Except PyExc β) (l : List α) (e : PyExc)
    (hall : ∀ a ∈ l, (∃ w, f a = .ok w) ∨ f a = .error e)
    (hex : ∃ a ∈ l, f a = .error e) : mapME f l = .error e := by
  induction l with
  | nil => simp at hex
  | cons x xs ih =>
    rcases hall x (by simp) with ⟨w, hw⟩ | hw
    · have hex2 : ∃ a ∈ xs, f a = .error e := by
        rcases hex with ⟨a, ha, hae⟩
        rw [List.mem_cons] at ha
        rcases ha with rfl | ha
        · rw [hw] at hae; cases hae
        · exact ⟨a, ha, hae⟩
      have := ih (fun a ha => hall a (by simp [ha])) hex2
      simp [mapME, hw, this]
      rfl
    · simp [mapME, hw]
      rfl

theorem tableOf_length (labels : List Label) (team : List ℚ) :
    (tableOf labels team).length = team.length := by
  simp [tableOf]

theorem insertByScore_length (x : Nat × Label × ℚ) (l : List (Nat × Label × ℚ)) :
    (insertByScore x l).length = l.length + 1 := by
  induction l with
  | nil => rfl
  | cons y ys ih =>
    unfold insertByScore
    split <;> simp [ih]

theorem sortByScoreDesc_length (l : List (Nat × Label × ℚ)) :
    (sortByScoreDesc l).length = l.length := by
  induction l with
  | nil => rfl
  | cons x xs ih =>
    show (insertByScore x (sortByScoreDesc xs)).length = xs.length + 1
    rw [insertByScore_length, ih]

theorem buildTable_ok (labels : List Label) (team : List ℚ)
    (h : team.length ≤ labels.length) :
    buildTable labels team = .ok (tableOf labels team) := by
  unfold buildTable tableOf
  apply mapME_ok_of
  intro m hm
  have hm' : m < team.length := List.mem_range.mp hm
  have hlab : m < labels.length := by omega
  rw [pyIndex_nat labels m hlab]
  simp [Except.map, List.getD_eq_getElem?_getD, List.getElem?_eq_getElem hlab]

theorem rerankTeam_eq (labels : List Label) (ratios : Ratios) (oracle : Oracle)
    (algorithm : String) (kmax : Nat) (team : List ℚ)
    (h : team.length ≤ labels.length) :
    rerankTeam labels ratios oracle algorithm kmax team =
      match mapME (fun m =>
          (pyIndex (sortByScoreDesc (tableOf labels team)) m).map (fun t => t.2.2))
          (oracle (sortedLabels labels team) ratios kmax algorithm) with
      | .error e => .error e
      | .ok probs => .ok (oracle (sortedLabels labels team) ratios kmax algorithm, probs) := by
  unfold rerankTeam sortedLabels
  rw [buildTable_ok labels team h]

theorem rerankTeam_ok_iff (labels : List Label) (ratios : Ratios) (oracle : Oracle)
    (algorithm : String) (kmax : Nat) (team : List ℚ)
    (h : team.length ≤ labels.length) :
    (∃ v, rerankTeam labels ratios oracle algorithm kmax team = .ok v) ↔
      ∀ p ∈ oracle (sortedLabels labels team) ratios kmax algorithm,
        -(team.length : Int) ≤ p ∧ p < (team.length : Int) := by
  rw [rerankTeam_eq labels ratios oracle algorithm kmax team h]
  have hlen : (sortByScoreDesc (tableOf labels team)).length = team.length := by
    rw [sortByScoreDesc_length, tableOf_length]
  cases hm : mapME (fun m =>
      (pyIndex (sortByScoreDesc (tableOf labels team)) m).map (fun t => t.2.2))
      (oracle (sortedLabels labels team) ratios kmax algorithm) with
  | error e =>
    constructor
    · rintro ⟨v, hv⟩
      exact absurd hv (by simp)
    · intro hr
      exfalso
      have hok : ∃ w, mapME (fun m =>
          (pyIndex (sortByScoreDesc (tableOf labels team)) m).map (fun t => t.2.2))
          (oracle (sortedLabels labels team) ratios kmax algorithm) = .ok w := by
        rw [mapME_ok_iff]
        intro p hp
        rw [exceptMap_ok_iff, pyIndex_ok_iff, hlen]
        exact hr p hp
      rcases hok with ⟨w, hw⟩
      rw [hm] at hw
      cases hw
  | ok probs =>
    constructor
    · intro _ p hp
      have hok : ∃ w, mapME (fun m =>
          (pyIndex (sortByScoreDesc (tableOf labels team)) m).map (fun t => t.2.2))
          (oracle (sortedLabels labels team) ratios kmax algorithm) = .ok w := ⟨probs, hm⟩
      rw [mapME_ok_iff] at hok
      have h2 := hok p hp
      rw [exceptMap_ok_iff, pyIndex_ok_iff, hlen] at h2
      exact h2
    · intro _
      exact ⟨_, rfl⟩

theorem rerankTeam_error (labels : List Label) (ratios : Ratios) (oracle : Oracle)
    (algorithm : String) (kmax : Nat) (team : List ℚ)
    (h : team.length ≤ labels.length)
    (hbad : ∃ p ∈ oracle (sortedLabels labels team) ratios kmax algorithm,
      ¬(-(team.length : Int) ≤ p ∧ p < (team.length : Int))) :
    rerankTeam labels ratios oracle algorithm kmax team = .error .indexError := by
  rw [rerankTeam_eq labels ratios oracle algorithm kmax team h]
  have hlen : (sortByScoreDesc (tableOf labels team)).length = team.length := by
    rw [sortByScoreDesc_length, tableOf_length]
  have hm : mapME (fun m =>
      (pyIndex (sortByScoreDesc (tableOf labels team)) m).map (fun t => t.2.2))
      (oracle (sortedLabels labels team) ratios kmax algorithm) = .error .indexError := by
    apply mapME_error
    · intro p hp
      by_cases hr : -(team.length : Int) ≤ p ∧ p < (team.length : Int)
      · left
        rw [exceptMap_ok_iff, pyIndex_ok_iff, hlen]
        exact hr
      · right
        rw [exceptMap_error_iff]
        apply pyIndex_error
        intro hc
        apply hr
        rw [hlen] at hc
        exact hc
    · rcases hbad with ⟨p, hp, hnr⟩
      refine ⟨p, hp, ?_⟩
      rw [exceptMap_error_iff]
      apply pyIndex_error
      intro hc
      apply hnr
      rw [hlen] at hc
      exact hc
  rw [hm]

/-- The concrete oracle of the C8 counterexample: it returns the single
position `-1`, which is outside `[0, team_size)`. -/
def oracleC8 : Oracle := fun _ _ _ _ => [-1]

/-- C8 counterexample: on a team of size 2 the oracle returns position `-1`,
which lies outside `[0, team_size)`, yet `rerank` does not fail: Python's
negative indexing makes `member_popularity_probs[-1]` select the last entry
of the sorted table, so the call succeeds with `idx = [[-1]]` and the lowest
score `[[3]]`.  This refutes the claim that `rerank` fails with an index
error whenever the oracle returns a position outside `[0, team_size)`. -/
theorem C8_counterexample_negative_position :
    (¬(0 ≤ (-1 : Int) ∧ (-1 : Int) < (([3, 7] : List ℚ).length : Int))) ∧
    Reranking.rerank [[3, 7]] [Label.p, Label.np] ⟨1, 0⟩ oracleC8 "det_greedy" 2
      = .ok ([[-1]], [[3]]) := by
  constructor
  · decide
  · decide

/-- C8 (amended): `rerank` raises `IndexError` (the spec's
`IndexMappingError`) iff some oracle-returned position lies outside
`[-team_size, team_size)` - Python indexing accepts negative positions down
to `-team_size`, selecting from the end of the sorted order, instead of
failing on them; positions in `[-team_size, team_size)` for every team never
fail.  Hypothesis: each prediction row is no longer than the label list (as
produced by `get_stats` on the full candidate set), otherwise building
`member_popularity_probs` itself raises. -/
theorem C8_amended_rerank_fails_iff_position_out_of_python_range
    (preds : List (List ℚ)) (labels : List Label) (ratios : Ratios)
    (oracle : Oracle) (algorithm : String) (kmax : Nat)
    (hlab : ∀ t ∈ preds, t.length ≤ labels.length) :
    ((∃ v, Reranking.rerank preds labels ratios oracle algorithm kmax = .ok v) ↔
      ∀ t ∈ preds, ∀ p ∈ oracle (sortedLabels labels t) ratios kmax algorithm,
        -(t.length : Int) ≤ p ∧ p < (t.length : Int)) ∧
    ((∃ t ∈ preds, ∃ p ∈ oracle (sortedLabels labels t) ratios kmax algorithm,
        ¬(-(t.length : Int) ≤ p ∧ p < (t.length : Int))) →
      Reranking.rerank preds labels ratios oracle algorithm kmax
        = .error .indexError) := by
  constructor
  · unfold Reranking.rerank
    rw [exceptMap_ok_iff, mapME_ok_iff]
    constructor
    · intro h t ht
      exact (rerankTeam_ok_iff labels ratios oracle algorithm kmax t (hlab t ht)).mp (h t ht)
    · intro h t ht
      exact (rerankTeam_ok_iff labels ratios oracle algorithm kmax t (hlab t ht)).mpr (h t ht)
  · intro hbad
    unfold Reranking.rerank
    rw [exceptMap_error_iff]
    apply mapME_error
    · intro t ht
      by_cases hok : ∀ p ∈ oracle (sortedLabels labels t) ratios kmax algorithm,
          -(t.length : Int) ≤ p ∧ p < (t.length : Int)
      · left
        exact (rerankTeam_ok_iff labels ratios oracle algorithm kmax t (hlab t ht)).mpr hok
      · right
        apply rerankTeam_error labels ratios oracle algorithm kmax t (hlab t ht)
        push_neg at hok
        rcases hok with ⟨p, hp, hnp⟩
        exact ⟨p, hp, by push_neg; exact hnp⟩
    · rcases hbad with ⟨t, ht, hb⟩
      exact ⟨t, ht, rerankTeam_error labels ratios oracle algorithm kmax t (hlab t ht) hb⟩

/-- Oracle used by the C8 witness: keeps the two sorted positions in order. -/
def oracleC8w : Oracle := fun _ _ _ _ => [0, 1]

/-- Witness for C8's amended theorem at a concrete two-candidate team. -/
theorem C8_amended_witness :
    (∀ t ∈ [[(3 : ℚ), 7]], t.length ≤ ([Label.p, Label.np] : List Label).length) ∧
    (∃ v, Reranking.rerank [[(3 : ℚ), 7]] [Label.p, Label.np] ⟨1, 0⟩
      oracleC8w "det_greedy" 2 = .ok v) :=
  ⟨by decide,
   (C8_amended_rerank_fails_iff_position_out_of_python_range
      [[(3 : ℚ), 7]] [Label.p, Label.np] ⟨1, 0⟩ oracleC8w "det_greedy" 2
      (by decide)).1.mpr (by decide)⟩

/-! ## Sparse reconstruction: `Reranking.reranked_preds` -/

/-- The sparse matrix produced by `csr_matrix((value, (rows, cols)), shape)`:
a shape and the collected COO triplets `(row, col, value)`.  Reading an entry
sums the values of all matching triplets, as scipy does with duplicates. -/
structure SparseCOO where
  shape : Nat × Nat
  triplets : List (Nat × Int × ℚ)
deriving DecidableEq, Repr

/-- Entry `(r, c)` of the sparse matrix: the sum of all triplet values at
that coordinate (zero when no triplet matches). -/
def SparseCOO.entry (s : SparseCOO) (r : Nat) (c : Int) : ℚ :=
  ((s.triplets.filter (fun t => t.1 == r && t.2.1 == c)).map (fun t => t.2.2)).sum

/-- The inner loop `for j, reranked_member in enumerate(reranked_team)` of
`reranked_preds`: emits one triplet `(i, member, reranked_probs[i][j])` per
member, where `prow = reranked_probs[i]` and the `[j]` lookup is Python
indexing (raising when the probability row is shorter than the index row). -/
def teamTriplets (i : Nat) (prow : List ℚ) : Nat → List Int → Except PyExc (List (Nat × Int × ℚ))
  | _, [] => .ok []
  | j, member :: rest =>
    match pyIndex prow (j : Int) with
    | .error e => .error e
    | .ok v =>
      match teamTriplets i prow (j + 1) rest with
      | .error e => .error e
      | .ok tl => .ok ((i, member, v) :: tl)

/-- The outer loop `for i, reranked_team in enumerate(reranked_idx)` of
`reranked_preds`, with the `reranked_probs[i]` Python lookup. -/
def allTriplets (probs : List (List ℚ)) : Nat → List (List Int) → Except PyExc (List (Nat × Int × ℚ))
  | _, [] => .ok []
  | i, team :: rest =>
    match pyIndex probs (i : Int) with
    | .error e => .error e
    | .ok prow =>
      match teamTriplets i prow 0 team with
      | .error e => .error e
      | .ok ts =>
        match allTriplets probs (i + 1) rest with
        | .error e => .error e
        | .ok tl => .ok (ts ++ tl)

/-- Pure description of `teamTriplets` when the probability row is long
enough (out-of-range lookups padded with 0; equal to `teamTriplets` under the
length hypothesis, see `teamTriplets_ok`). -/
def teamTripletsP (i : Nat) (prow : List ℚ) : Nat → List Int → List (Nat × Int × ℚ)
  | _, [] => []
  | j, member :: rest => (i, member, prow.getD j 0) :: teamTripletsP i prow (j + 1) rest

/-- Pure description of `allTriplets` under the length hypotheses. -/
def allTripletsP (probs : List (List ℚ)) : Nat → List (List Int) → List (Nat × Int × ℚ)
  | _, [] => []
  | i, team :: rest =>
    teamTripletsP i (probs.getD i []) 0 team ++ allTripletsP probs (i + 1) rest

/-- Embedding of `Reranking.reranked_preds`: slice `y_test =
teamsvecs[splits['test']]` (scipy raises `IndexError` on an out-of-range row
index), collect one COO triplet per reranked member with the carried original
probability, and build the csr matrix of shape `y_test.shape` (scipy raises
`ValueError` when a row or column index falls outside the shape, including
negative column ids). -/
def Reranking.reranked_preds (teamsvecs : Mat) (splitsTest : List Nat)
    (reranked_idx : List (List Int)) (reranked_probs : List (List ℚ)) :
    Except PyExc SparseCOO :=
  if splitsTest.all (fun r => decide (r < teamsvecs.rows.length)) then
    match allTriplets reranked_probs 0 reranked_idx with
    | .error e => .error e
    | .ok flat =>
      if flat.all (fun t => decide (t.1 < splitsTest.length) &&
          decide (0 ≤ t.2.1) && decide (t.2.1 < (teamsvecs.ncols : Int))) then
        .ok ⟨(splitsTest.length, teamsvecs.ncols), flat⟩
      else .error .valueError
  else .error .indexError

theorem getD_eq_get {α : Type} (xs : List α) (d : α) (n : Nat) (h : n < xs.length) :
    xs.getD n d = xs.get ⟨n, h⟩ := by
  rw [List.getD_eq_getElem?_getD, List.getElem?_eq_getElem h]
  rfl

theorem teamTriplets_ok (i : Nat) (prow : List ℚ) (team : List Int) :
    ∀ j, j + team.length ≤ prow.length →
      teamTriplets i prow j team = .ok (teamTripletsP i prow j team) := by
  induction team with
  | nil => intro j _; rfl
  | cons x rest ih =>
    intro j h
    have hj : j < prow.length := by simp at h; omega
    simp only [teamTriplets, teamTripletsP]
    rw [pyIndex_nat prow j hj, ih (j + 1) (by simp at h ⊢; omega)]
    rw [getD_eq_get prow 0 j hj]

theorem allTriplets_ok (probs : List (List ℚ)) (idx : List (List Int)) :
    ∀ i0, i0 + idx.length ≤ probs.length →
      (∀ k, k < idx.length → (idx.getD k []).length ≤ (probs.getD (i0 + k) []).length) →
      allTriplets probs i0 idx = .ok (allTripletsP probs i0 idx) := by
  induction idx with
  | nil => intro i0 _ _; rfl
  | cons team rest ih =>
    intro i0 hlen hrow
    have hi0 : i0 < probs.length := by simp at hlen; omega
    simp only [allTriplets, allTripletsP]
    rw [pyIndex_nat probs i0 hi0]
    have hprow : probs.get ⟨i0, hi0⟩ = probs.getD i0 [] := (getD_eq_get probs [] i0 hi0).symm
    rw [hprow]
    have hteam : team.length ≤ (probs.getD i0 []).length := by
      have := hrow 0 (by simp)
      simpa using this
    show (match teamTriplets i0 (probs.getD i0 []) 0 team with
      | .error e => (Except.error e : Except PyExc (List (Nat × Int × ℚ)))
      | .ok ts =>
        match allTriplets probs (i0 + 1) rest with
        | .error e => .error e
        | .ok tl => .ok (ts ++ tl)) =
      .ok (teamTripletsP i0 (probs.getD i0 []) 0 team ++ allTripletsP probs (i0 + 1) rest)
    rw [teamTriplets_ok i0 (probs.getD i0 []) team 0 (by omega)]
    show (match allTriplets probs (i0 + 1) rest with
      | .error e => (Except.error e : Except PyExc (List (Nat × Int × ℚ)))
      | .ok tl => .ok (teamTripletsP i0 (probs.getD i0 []) 0 team ++ tl)) = _
    rw [ih (i0 + 1) (by simp at hlen ⊢; omega)
      (fun k hk => by
        have := hrow (k + 1) (by simp; omega)
        simpa [Nat.add_assoc, Nat.add_comm 1 k] using this)]

theorem filter_nil_of_none {α : Type} (p : α → Bool) (l : List α)
    (h : ∀ a ∈ l, p a = false) : l.filter p = [] := by
  induction l with
  | nil => rfl
  | cons x xs ih =>
    have hx := h x (by simp)
    simp only [List.filter_cons, hx]
    exact ih (fun a ha => h a (by simp [ha]))

theorem teamTripletsP_mem (i : Nat) (prow : List ℚ) (team : List Int)
    (t : Nat × Int × ℚ) :
    ∀ j, t ∈ teamTripletsP i prow j team → t.1 = i ∧ t.2.1 ∈ team := by
  induction team with
  | nil =>
    intro j h
    simp [teamTripletsP] at h
  | cons x rest ih =>
    intro j h
    simp only [teamTripletsP] at h
    rcases List.mem_cons.mp h with rfl | h2
    · exact ⟨rfl, by simp⟩
    · rcases ih (j + 1) h2 with ⟨h1, h3⟩
      exact ⟨h1, by simp [h3]⟩

theorem teamTripletsP_filter_ne (i r : Nat) (c : Int) (prow : List ℚ) (j : Nat)
    (team : List Int) (h : r ≠ i) :
    (teamTripletsP i prow j team).filter (fun t => t.1 == r && t.2.1 == c) = [] := by
  apply filter_nil_of_none
  intro a ha
  rcases teamTripletsP_mem i prow team a j ha with ⟨h1, _⟩
  have hbe : (a.1 == r) = false := by
    rw [h1]
    exact beq_eq_false_iff_ne.mpr (Ne.symm h)
  simp [hbe]

theorem teamTripletsP_filter_not_mem (i : Nat) (c : Int) (prow : List ℚ) (j : Nat)
    (team : List Int) (h : c ∉ team) :
    (teamTripletsP i prow j team).filter (fun t => t.1 == i && t.2.1 == c) = [] := by
  apply filter_nil_of_none
  intro a ha
  rcases teamTripletsP_mem i prow team a j ha with ⟨_, h2⟩
  have hbe : (a.2.1 == c) = false := beq_eq_false_iff_ne.mpr (fun hc => h (hc ▸ h2))
  simp [hbe]

theorem teamTripletsP_filter_get (i : Nat) (prow : List ℚ) (team : List Int)
    (hnd : team.Nodup) (k : Nat) (hk : k < team.length) :
    ∀ j, (teamTripletsP i prow j team).filter
        (fun t => t.1 == i && t.2.1 == team.get ⟨k, hk⟩) =
      [(i, team.get ⟨k, hk⟩, prow.getD (j + k) 0)] := by
  induction team generalizing k with
  | nil => simp at hk
  | cons x rest ih =>
    intro j
    rcases List.nodup_cons.mp hnd with ⟨hxnot, hndr⟩
    cases k with
    | zero =>
      have hget : (x :: rest).get ⟨0, hk⟩ = x := rfl
      simp only [teamTripletsP, List.filter_cons, hget]
      have hhead : (((i, x, prow.getD j 0).1 == i) &&
          ((i, x, prow.getD j 0).2.1 == x)) = true := by simp
      rw [hhead]
      rw [teamTripletsP_filter_not_mem i x prow (j + 1) rest hxnot]
      simp
    | succ m =>
      have hm : m < rest.length := by simp at hk; omega
      have hget : (x :: rest).get ⟨m + 1, hk⟩ = rest.get ⟨m, hm⟩ := rfl
      simp only [teamTripletsP, List.filter_cons, hget]
      have hxc : (x == rest.get ⟨m, hm⟩) = false := by
        apply beq_eq_false_iff_ne.mpr
        intro hx
        apply hxnot
        rw [hx]
        exact List.getElem_mem hm
      have hhead : (((i, x, prow.getD j 0).1 == i) &&
          ((i, x, prow.getD j 0).2.1 == rest.get ⟨m, hm⟩)) = false := by
        show ((i == i) && (x == rest.get ⟨m, hm⟩)) = false
        rw [hxc, Bool.and_false]
      rw [hhead]
      have := ih hndr m hm (j + 1)
      rw [this]
      have harith : j + 1 + m = j + (m + 1) := by omega
      rw [harith]
      simp

theorem allTripletsP_mem (probs : List (List ℚ)) (idx : List (List Int))
    (t : Nat × Int × ℚ) :
    ∀ i0, t ∈ allTripletsP probs i0 idx →
      ∃ k, k < idx.length ∧ t.1 = i0 + k ∧ t.2.1 ∈ idx.getD k [] := by
  induction idx with
  | nil =>
    intro i0 h
    simp [allTripletsP] at h
  | cons team rest ih =>
    intro i0 h
    simp only [allTripletsP] at h
    rcases List.mem_append.mp h with h1 | h2
    · rcases teamTripletsP_mem i0 (probs.getD i0 []) team t 0 h1 with ⟨ha, hb⟩
      exact ⟨0, by simp, by simp [ha], by simpa using hb⟩
    · rcases ih (i0 + 1) h2 with ⟨k, hk, ha, hb⟩
      refine ⟨k + 1, by simp; omega, by rw [ha]; omega, by simpa using hb⟩

theorem allTripletsP_filter_lt (probs : List (List ℚ)) (idx : List (List Int))
    (r : Nat) (c : Int) :
    ∀ i0, r < i0 →
      (allTripletsP probs i0 idx).filter (fun t => t.1 == r && t.2.1 == c) = [] := by
  induction idx with
  | nil => intro i0 _; rfl
  | cons team rest ih =>
    intro i0 h
    simp only [allTripletsP, List.filter_append]
    rw [teamTripletsP_filter_ne i0 r c (probs.getD i0 []) 0 team (by omega),
      ih (i0 + 1) (by omega)]
    rfl

theorem allTripletsP_filter_eq (probs : List (List ℚ)) (idx : List (List Int)) (c : Int) :
    ∀ i0 k (hk : k < idx.length),
      (allTripletsP probs i0 idx).filter (fun t => t.1 == i0 + k && t.2.1 == c) =
        (teamTripletsP (i0 + k) (probs.getD (i0 + k) []) 0 (idx.get ⟨k, hk⟩)).filter
          (fun t => t.1 == i0 + k && t.2.1 == c) := by
  induction idx with
  | nil =>
    intro i0 k hk
    simp at hk
  | cons team rest ih =>
    intro i0 k hk
    cases k with
    | zero =>
      simp only [allTripletsP, List.filter_append]
      rw [allTripletsP_filter_lt probs rest (i0 + 0) c (i0 + 1) (by omega)]
      simp
    | succ m =>
      have hm : m < rest.length := by simp at hk; omega
      simp only [allTripletsP, List.filter_append]
      rw [teamTripletsP_filter_ne i0 (i0 + (m + 1)) c (probs.getD i0 []) 0 team (by omega)]
      have harith : i0 + (m + 1) = (i0 + 1) + m := by omega
      rw [List.nil_append, harith, ih (i0 + 1) m hm]
      have hget : (team :: rest).get ⟨m + 1, hk⟩ = rest.get ⟨m, hm⟩ := rfl
      rw [hget]

theorem reranked_preds_ok (teamsvecs : Mat) (splitsTest : List Nat)
    (idx : List (List Int)) (probs : List (List ℚ))
    (hsp : splitsTest.all (fun r => decide (r < teamsvecs.rows.length)) = true)
    (hall : allTriplets probs 0 idx = .ok (allTripletsP probs 0 idx))
    (hflat : (allTripletsP probs 0 idx).all (fun t =>
      decide (t.1 < splitsTest.length) && decide (0 ≤ t.2.1) &&
      decide (t.2.1 < (teamsvecs.ncols : Int))) = true) :
    Reranking.reranked_preds teamsvecs splitsTest idx probs =
      .ok ⟨(splitsTest.length, teamsvecs.ncols), allTripletsP probs 0 idx⟩ := by
  unfold Reranking.reranked_preds
  rw [hsp]
  rw [if_pos rfl]
  rw [hall]
  show (if (allTripletsP probs 0 idx).all (fun t =>
      decide (t.1 < splitsTest.length) && decide (0 ≤ t.2.1) &&
      decide (t.2.1 < (teamsvecs.ncols : Int))) = true then
        (Except.ok ⟨(splitsTest.length, teamsvecs.ncols), allTripletsP probs 0 idx⟩ :
          Except PyExc SparseCOO)
      else .error .valueError) = _
  rw [hflat, if_pos rfl]

theorem allTripletsP_entry_get (probs : List (List ℚ)) (idx : List (List Int))
    (i : Nat) (hi : i < idx.length) (hnd : (idx.get ⟨i, hi⟩).Nodup)
    (j : Nat) (hj : j < (idx.get ⟨i, hi⟩).length) :
    (((allTripletsP probs 0 idx).filter (fun t =>
        t.1 == i && t.2.1 == (idx.get ⟨i, hi⟩).get ⟨j, hj⟩)).map (fun t => t.2.2)).sum =
      (probs.getD i []).getD j 0 := by
  have heq := allTripletsP_filter_eq probs idx ((idx.get ⟨i, hi⟩).get ⟨j, hj⟩) 0 i hi
  simp only [Nat.zero_add] at heq
  rw [heq, teamTripletsP_filter_get i (probs.getD i []) (idx.get ⟨i, hi⟩) hnd j hj 0]
  simp

theorem allTripletsP_entry_zero (probs : List (List ℚ)) (idx : List (List Int))
    (i : Nat) (c : Int) (hc : c ∉ idx.getD i []) :
    (((allTripletsP probs 0 idx).filter (fun t => t.1 == i && t.2.1 == c)).map
      (fun t => t.2.2)).sum = 0 := by
  have hnil : (allTripletsP probs 0 idx).filter (fun t => t.1 == i && t.2.1 == c) = [] := by
    apply filter_nil_of_none
    intro t ht
    rcases allTripletsP_mem probs idx t 0 ht with ⟨k, hk, h1, h2⟩
    simp only [Nat.zero_add] at h1
    by_cases hki : k = i
    · subst hki
      have hne : (t.2.1 == c) = false :=
        beq_eq_false_iff_ne.mpr (fun hcc => hc (hcc ▸ h2))
      simp [hne]
    · have hne : (t.1 == i) = false := beq_eq_false_iff_ne.mpr (by rw [h1]; exact hki)
      simp [hne]
  rw [hnil]
  rfl

/-- C4: with per-team unique candidate indices (and the input-contract bounds
the spec assumes for the reranked output: row count within the test split,
probability rows as long as index rows, candidate ids inside the candidate
space), `reranked_preds` succeeds and the resulting sparse matrix carries
exactly `reranked_probs[i][j]` at entry `(i, reranked_idx[i][j])`, with every
(team, candidate) pair absent from `reranked_idx` equal to zero - reading the
matrix back recovers exactly the reranked index/score pairs. -/
theorem C4_reranked_preds_roundtrip (teamsvecs : Mat) (splitsTest : List Nat)
    (idx : List (List Int)) (probs : List (List ℚ))
    (hsplit : ∀ r ∈ splitsTest, r < teamsvecs.rows.length)
    (hrows : idx.length ≤ splitsTest.length)
    (hplen : idx.length ≤ probs.length)
    (hrowlen : ∀ k, k < idx.length → (idx.getD k []).length ≤ (probs.getD k []).length)
    (hnodup : ∀ t ∈ idx, t.Nodup)
    (hcols : ∀ t ∈ idx, ∀ c ∈ t, 0 ≤ c ∧ c < (teamsvecs.ncols : Int)) :
    ∃ s, Reranking.reranked_preds teamsvecs splitsTest idx probs = .ok s ∧
      s.shape = (splitsTest.length, teamsvecs.ncols) ∧
      (∀ (i : Nat) (hi : i < idx.length) (j : Nat) (hj : j < (idx.get ⟨i, hi⟩).length),
        s.entry i ((idx.get ⟨i, hi⟩).get ⟨j, hj⟩) = (probs.getD i []).getD j 0) ∧
      (∀ (i : Nat) (c : Int), c ∉ idx.getD i [] → s.entry i c = 0) := by
  have hall := allTriplets_ok probs idx 0 (by simpa using hplen)
    (fun k hk => by simpa using hrowlen k hk)
  have hsp : splitsTest.all (fun r => decide (r < teamsvecs.rows.length)) = true := by
    rw [List.all_eq_true]
    intro r hr
    exact decide_eq_true (hsplit r hr)
  have hflat : (allTripletsP probs 0 idx).all (fun t =>
      decide (t.1 < splitsTest.length) && decide (0 ≤ t.2.1) &&
      decide (t.2.1 < (teamsvecs.ncols : Int))) = true := by
    rw [List.all_eq_true]
    intro t ht
    rcases allTripletsP_mem probs idx t 0 ht with ⟨k, hk, h1, h2⟩
    simp only [Nat.zero_add] at h1
    have hkteam : idx.getD k [] ∈ idx := by
      rw [getD_eq_get idx [] k hk]
      exact List.get_mem idx k hk
    rcases hcols _ hkteam _ h2 with ⟨hc1, hc2⟩
    have ht1 : t.1 < splitsTest.length := by rw [h1]; omega
    simp [ht1, hc1, hc2]
  refine ⟨⟨(splitsTest.length, teamsvecs.ncols), allTripletsP probs 0 idx⟩,
    reranked_preds_ok teamsvecs splitsTest idx probs hsp hall hflat, rfl, ?_, ?_⟩
  · intro i hi j hj
    exact allTripletsP_entry_get probs idx i hi (hnodup _ (List.get_mem idx i hi)) j hj
  · intro i c hc
    exact allTripletsP_entry_zero probs idx i c hc

/-- Witness for C4 on a concrete instance: one test team over three
candidates, reranked ids `[2, 0]` with scores `[9, 1]`; the matrix holds 9 at
column 2, 1 at column 0 and 0 at the absent column 1. -/
theorem C4_roundtrip_witness :
    (∀ t ∈ [[(2 : Int), 0]], t.Nodup) ∧
    (∃ s, Reranking.reranked_preds ⟨3, [[0, 0, 0]]⟩ [0] [[2, 0]] [[9, 1]] = .ok s ∧
      s.shape = (1, 3) ∧ s.entry 0 2 = 9 ∧ s.entry 0 0 = 1 ∧ s.entry 0 1 = 0) := by
  constructor
  · decide
  · rcases C4_reranked_preds_roundtrip ⟨3, [[0, 0, 0]]⟩ [0] [[2, 0]] [[9, 1]]
      (by decide) (by decide) (by decide) (by decide) (by decide) (by decide) with
      ⟨s, hs, hshape, hentry, hzero⟩
    refine ⟨s, hs, hshape, ?_, ?_, ?_⟩
    · have := hentry 0 (by decide) 0 (by decide)
      simpa using this
    · have := hentry 0 (by decide) 1 (by decide)
      simpa using this
    · have := hzero 0 1 (by decide)
      simpa using this

/-! ## The fairness evaluator and the orchestrator `Reranking.run` -/

/-- The per-team body of `Reranking.eval_fairness`, carried along the
`enumerate(preds)` counter: ndkl of the score-sorted label sequence (before),
then ndkl of `[labels[int(m)] for m in reranked_idx[i]]` (after), both Python
indexed. -/
def fairRows (labels : List Label) (reranked_idx : List (List Int)) (ratios : Ratios)
    (ndklF : NdklOracle) : Nat → List (List ℚ) → Except PyExc (List (ℚ × ℚ))
  | _, [] => .ok []
  | i, team :: rest =>
    match buildTable labels team with
    | .error e => .error e
    | .ok table =>
      let before := ndklF ((sortByScoreDesc table).map (fun t => t.2.1)) ratios
      match pyIndex reranked_idx (i : Int) with
      | .error e => .error e
      | .ok row =>
        match mapME (fun mIdx => pyIndex labels mIdx) row with
        | .error e => .error e
        | .ok afterLabels =>
          match fairRows labels reranked_idx ratios ndklF (i + 1) rest with
          | .error e => .error e
          | .ok tl => .ok ((before, ndklF afterLabels ratios) :: tl)

/-- Embedding of `Reranking.eval_fairness`: one (ndkl-before, ndkl-after)
pair per team.  Note the after-sequence looks the stored `reranked_idx`
values up in the label table directly. -/
def Reranking.eval_fairness (preds : List (List ℚ)) (labels : List Label)
    (reranked_idx : List (List Int)) (ratios : Ratios) (ndklF : NdklOracle) :
    Except PyExc (List ℚ × List ℚ) :=
  (fairRows labels reranked_idx ratios ndklF 0 preds).map
    (fun rows => (rows.map Prod.fst, rows.map Prod.snd))

/-- Per-stage checkpoint-load outcomes for one `run` invocation: `.ok v`
is a successful load (cache hit) with the deserialized value, `.error e` the
exception that load raised.  The `stats` slot covers the combined
`stats.pkl` pickle load and `popularity.csv` read (one `try` block in the
source); the other slots correspond to the source's other five `try`
blocks. -/
structure Store where
  stats : Except PyExc (Stats × List Label)
  rerank : Except PyExc (List (List Int) × List (List ℚ))
  faireval : Except PyExc (List ℚ × List ℚ)
  sparse : Except PyExc SparseCOO
  utilBefore : Except PyExc Unit
  utilAfter : Except PyExc Unit

/-- The five computation stages `run` can execute fresh on a cache miss.
`evalUtilityBoth` is the call `eval_utility(..)` with its default
`op=('after','before')` in the utility-before miss branch (it computes and
writes both tables); `evalUtilityAfter` the call with `op=('after',)`. -/
inductive Stage where
  | getStats : Stage
  | rerank : Stage
  | evalFairness : Stage
  | rerankedPreds : Stage
  | evalUtilityBoth : Stage
  | evalUtilityAfter : Stage
deriving DecidableEq, Repr

/-- Observable trace of one `run`: which stages were executed fresh, in
order.  Every persisted table write of the source happens inside a stage
function, so `executed = []` means no persisted table is touched (and the
runtime log, written inside `rerank`, is not appended either). -/
structure Trace where
  executed : List Stage
deriving DecidableEq, Repr

/-- One `try/except` block of `run`: use the loaded checkpoint on success;
on a load failure matched by the `except` clause run the stage fresh (its
own failures propagate); re-raise any other load failure.  The boolean
records whether the fresh computation ran. -/
def tryStage {α : Type} (slot : Except PyExc α) (caught : PyExc → Bool)
    (fresh : Except PyExc α) : Except PyExc (α × Bool) :=
  match slot with
  | .ok v => .ok (v, false)
  | .error e => if caught e then fresh.map (fun v => (v, true)) else .error e

/-- The stats block catches `(FileNotFoundError, EOFError)`. -/
def statsCaught (e : PyExc) : Bool := e == .fileNotFoundError || e == .eofError

/-- The rerank, faireval and sparse blocks catch only `FileNotFoundError`. -/
def fnfOnly (e : PyExc) : Bool := e == .fileNotFoundError

/-- The two utility blocks use a bare `except:`. -/
def anyExc (_ : PyExc) : Bool := true

/-- The stats stage of `run`: on a caught load failure it calls
`Reranking.get_stats(teamsvecs['member'], coefficient=1, output=output)`. -/
def statsStage (store : Store) (teamsvecs : Mat) :
    Except PyExc ((Stats × List Label) × Bool) :=
  tryStage store.stats statsCaught (Reranking.get_stats teamsvecs 1)

/-- The rerank stage of `run` (catches only `FileNotFoundError`). -/
def rerankStage (store : Store)
    (fresh : Except PyExc (List (List Int) × List (List ℚ))) :
    Except PyExc ((List (List Int) × List (List ℚ)) × Bool) :=
  tryStage store.rerank fnfOnly fresh

/-- The fairness-evaluation stage of `run` (catches only
`FileNotFoundError`). -/
def fairStage (store : Store) (fresh : Except PyExc (List ℚ × List ℚ)) :
    Except PyExc ((List ℚ × List ℚ) × Bool) :=
  tryStage store.faireval fnfOnly fresh

/-- The sparse-reconstruction stage of `run` (catches only
`FileNotFoundError`). -/
def sparseStage (store : Store) (fresh : Except PyExc SparseCOO) :
    Except PyExc (SparseCOO × Bool) :=
  tryStage store.sparse fnfOnly fresh

/-- The utility-before stage of `run`: bare `except:`, and the fresh call
delegates to the external `calculate_metrics` (modelled total), so it never
propagates a load failure. -/
def utilBeforeStage (store : Store) : Except PyExc (Unit × Bool) :=
  tryStage store.utilBefore anyExc (.ok ())

/-- The utility-after stage of `run`: when the before stage just ran fresh it
also wrote the after table (`op` defaults to `('after','before')`), so the
after load succeeds; otherwise the stored outcome applies, again under a
bare `except:`. -/
def utilAfterStage (store : Store) (beforeFresh : Bool) : Except PyExc (Unit × Bool) :=
  tryStage (if beforeFresh then Except.ok () else store.utilAfter) anyExc (.ok ())

/-- Embedding of `Reranking.run` for one prediction file, over already-loaded
inputs: resolve the six checkpointed stages in the source's order, deriving
`ratios` from the stats when the caller supplies none
(`if not ratios: ratios = stats['popularity_ratio']`), and return the trace
of stages executed fresh.  Any load failure not matched by its block's
`except` clause, and any failure of a fresh stage computation, propagates
out. -/
def Reranking.run (teamsvecs : Mat) (preds : List (List ℚ)) (splitsTest : List Nat)
    (ratiosOpt : Option Ratios) (oracle : Oracle) (ndklF : NdklOracle)
    (algorithm : String) (kmax : Nat) (store : Store) : Except PyExc Trace :=
  match statsStage store teamsvecs with
  | .error e => .error e
  | .ok (sv, sFresh) =>
    let ratios := ratiosOpt.getD ⟨sv.1.ratio_p, sv.1.ratio_np⟩
    match rerankStage store (Reranking.rerank preds sv.2 ratios oracle algorithm kmax) with
    | .error e => .error e
    | .ok (rv, rFresh) =>
      match fairStage store (Reranking.eval_fairness preds sv.2 rv.1 ratios ndklF) with
      | .error e => .error e
      | .ok (_, fFresh) =>
        match sparseStage store (Reranking.reranked_preds teamsvecs splitsTest rv.1 rv.2) with
        | .error e => .error e
        | .ok (_, spFresh) =>
          match utilBeforeStage store with
          | .error e => .error e
          | .ok (_, ubFresh) =>
            match utilAfterStage store ubFresh with
            | .error e => .error e
            | .ok (_, uaFresh) =>
              .ok ⟨(if sFresh then [Stage.getStats] else []) ++
                   (if rFresh then [Stage.rerank] else []) ++
                   (if fFresh then [Stage.evalFairness] else []) ++
                   (if spFresh then [Stage.rerankedPreds] else []) ++
                   (if ubFresh then [Stage.evalUtilityBoth] else []) ++
                   (if uaFresh then [Stage.evalUtilityAfter] else [])⟩

/-- A concrete loaded stats value used by the orchestrator examples. -/
def svOkC : Stats × List Label := (⟨1, [1], 1, 1, 0⟩, [Label.p])

/-- A store whose rerank checkpoint is corrupt (its CSV load raises a parser
error) while every other checkpoint loads fine. -/
def storeC2 : Store :=
  ⟨.ok svOkC, .error .parserError, .ok ([], []), .ok ⟨(0, 1), []⟩, .ok (), .ok ()⟩

/-- A store whose rerank checkpoint file is missing and whose utility-before
checkpoint is corrupt. -/
def storeFnf : Store :=
  ⟨.ok svOkC, .error .fileNotFoundError, .ok ([], []), .ok ⟨(0, 1), []⟩,
   .error .eofError, .ok ()⟩

/-- A store with every checkpoint present and well-formed. -/
def storeAllOk : Store :=
  ⟨.ok svOkC, .ok ([], []), .ok ([], []), .ok ⟨(0, 1), []⟩, .ok (), .ok ()⟩

/-- A store missing only the popularity-labels checkpoint. -/
def storeStatsMiss : Store :=
  ⟨.error .fileNotFoundError, .ok ([], []), .ok ([], []), .ok ⟨(0, 1), []⟩, .ok (), .ok ()⟩

/-- An oracle returning no positions, for orchestrator-level examples. -/
def oracleNone : Oracle := fun _ _ _ _ => []

/-- A constant ndkl oracle, for orchestrator-level examples. -/
def ndklZero : NdklOracle := fun _ _ => 0

/-- C3: when every checkpoint of the store loads successfully, `run` executes
no stage at all - none of `get_stats`, `rerank`, `eval_fairness`,
`reranked_preds`, `eval_utility` runs - so no persisted table is rewritten
(every write happens inside a stage function) and not even the runtime log
(written inside `rerank`) is appended. -/
theorem C3_full_cache_executes_nothing
    (tv : Mat) (preds : List (List ℚ)) (st : List Nat) (rOpt : Option Ratios)
    (oracle : Oracle) (ndklF : NdklOracle) (alg : String) (kmax : Nat) (store : Store)
    (sv : Stats × List Label) (rv : List (List Int) × List (List ℚ))
    (fv : List ℚ × List ℚ) (spv : SparseCOO)
    (h1 : store.stats = .ok sv) (h2 : store.rerank = .ok rv)
    (h3 : store.faireval = .ok fv) (h4 : store.sparse = .ok spv)
    (h5 : store.utilBefore = .ok ()) (h6 : store.utilAfter = .ok ()) :
    Reranking.run tv preds st rOpt oracle ndklF alg kmax store = .ok ⟨[]⟩ := by
  simp only [Reranking.run, statsStage, rerankStage, fairStage, sparseStage,
    utilBeforeStage, utilAfterStage, tryStage, h1, h2, h3, h4, h5, h6]
  simp

/-- Witness for C3 at the concrete all-hit store. -/
theorem C3_witness :
    (storeAllOk.stats = .ok svOkC ∧ storeAllOk.utilAfter = .ok ()) ∧
    Reranking.run ⟨1, [[1]]⟩ [] [] (some ⟨1, 0⟩) oracleNone ndklZero "det_cons" 2 storeAllOk
      = .ok ⟨[]⟩ :=
  ⟨⟨rfl, rfl⟩,
   C3_full_cache_executes_nothing ⟨1, [[1]]⟩ [] [] (some ⟨1, 0⟩) oracleNone ndklZero
     "det_cons" 2 storeAllOk svOkC ([], []) ([], []) ⟨(0, 1), []⟩
     rfl rfl rfl rfl rfl rfl⟩

/-- C2 counterexample: the rerank checkpoint exists but is corrupt - its load
raises a parser error rather than `FileNotFoundError` - and `run` neither
executes the rerank stage fresh nor recovers: the load failure propagates out
of `run`, refuting the claim that any load failure of this stage triggers
fresh computation and does not propagate. -/
theorem C2_counterexample_corrupt_rerank_checkpoint :
    storeC2.rerank = .error .parserError ∧
    Reranking.run ⟨1, [[1]]⟩ [] [] (some ⟨1, 0⟩) oracleNone ndklZero "det_cons" 2 storeC2
      = .error .parserError := by
  constructor
  · rfl
  · rfl

/-- C2 (amended): the rerank, fairness-evaluation and sparse-reconstruction
stages recover (execute fresh) exactly from a `FileNotFoundError` on their
checkpoint load - any other load failure (corrupt or undeserializable
payload) propagates out of `run` - while the two utility stages, guarded by a
bare `except:`, recover from every load failure. -/
theorem C2_amended_cache_miss_recovery_per_stage :
    (∀ (store : Store) (e : PyExc) (fresh : Except PyExc (List (List Int) × List (List ℚ))),
      store.rerank = .error e →
        ((e = .fileNotFoundError →
            rerankStage store fresh = fresh.map (fun v => (v, true))) ∧
         (e ≠ .fileNotFoundError → rerankStage store fresh = .error e))) ∧
    (∀ (store : Store) (e : PyExc) (fresh : Except PyExc (List ℚ × List ℚ)),
      store.faireval = .error e →
        ((e = .fileNotFoundError →
            fairStage store fresh = fresh.map (fun v => (v, true))) ∧
         (e ≠ .fileNotFoundError → fairStage store fresh = .error e))) ∧
    (∀ (store : Store) (e : PyExc) (fresh : Except PyExc SparseCOO),
      store.sparse = .error e →
        ((e = .fileNotFoundError →
            sparseStage store fresh = fresh.map (fun v => (v, true))) ∧
         (e ≠ .fileNotFoundError → sparseStage store fresh = .error e))) ∧
    (∀ (store : Store) (e : PyExc), store.utilBefore = .error e →
      utilBeforeStage store = .ok ((), true)) ∧
    (∀ (store : Store) (e : PyExc), store.utilAfter = .error e →
      utilAfterStage store false = .ok ((), true)) ∧
    (∀ (tv : Mat) (preds : List (List ℚ)) (st : List Nat) (rOpt : Option Ratios)
      (oracle : Oracle) (ndklF : NdklOracle) (alg : String) (kmax : Nat)
      (store : Store) (sv : Stats × List Label) (e : PyExc),
      store.stats = .ok sv → store.rerank = .error e → e ≠ .fileNotFoundError →
      Reranking.run tv preds st rOpt oracle ndklF alg kmax store = .error e) := by
  refine ⟨?_, ?_, ?_, ?_, ?_, ?_⟩
  · intro store e fresh h
    constructor
    · intro he
      subst he
      unfold rerankStage tryStage
      rw [h]
      simp [fnfOnly]
    · intro hne
      have hc : fnfOnly e = false := beq_eq_false_iff_ne.mpr hne
      unfold rerankStage tryStage
      rw [h]
      simp [hc]
  · intro store e fresh h
    constructor
    · intro he
      subst he
      unfold fairStage tryStage
      rw [h]
      simp [fnfOnly]
    · intro hne
      have hc : fnfOnly e = false := beq_eq_false_iff_ne.mpr hne
      unfold fairStage tryStage
      rw [h]
      simp [hc]
  · intro store e fresh h
    constructor
    · intro he
      subst he
      unfold sparseStage tryStage
      rw [h]
      simp [fnfOnly]
    · intro hne
      have hc : fnfOnly e = false := beq_eq_false_iff_ne.mpr hne
      unfold sparseStage tryStage
      rw [h]
      simp [hc]
  · intro store e h
    unfold utilBeforeStage tryStage
    rw [h]
    simp [anyExc, Except.map]
  · intro store e h
    unfold utilAfterStage tryStage
    simp only [if_neg (by simp : ¬false = true)]
    rw [h]
    simp [anyExc, Except.map]
  · intro tv preds st rOpt oracle ndklF alg kmax store sv e h1 h2 hne
    have hc : fnfOnly e = false := beq_eq_false_iff_ne.mpr hne
    simp only [Reranking.run, statsStage, rerankStage, tryStage, h1, h2, hc]
    simp

/-- Witness for C2's amended theorem: a missing rerank checkpoint is
recovered by fresh execution, and a corrupt utility-before checkpoint is
recovered as well. -/
theorem C2_amended_witness :
    (storeFnf.rerank = .error .fileNotFoundError ∧
      rerankStage storeFnf (Except.ok ([], [])) = .ok (([], []), true)) ∧
    (storeFnf.utilBefore = .error .eofError ∧ utilBeforeStage storeFnf = .ok ((), true)) := by
  refine ⟨⟨rfl, ?_⟩, ⟨rfl, ?_⟩⟩
  · exact ((C2_amended_cache_miss_recovery_per_stage.1 storeFnf .fileNotFoundError
      (Except.ok ([], [])) rfl).1 rfl).trans rfl
  · exact C2_amended_cache_miss_recovery_per_stage.2.2.2.1 storeFnf .eofError rfl

/-- C10: whenever the popularity-labels checkpoint load fails with one of the
caught exceptions, `run` regenerates stats and labels by calling `get_stats`
with coefficient fixed to 1 (the only call site in the pipeline), and with
coefficient 1 the popularity threshold is exactly the mean participation
count. -/
theorem C10_stats_cache_miss_uses_coefficient_one :
    (∀ (store : Store) (tv : Mat) (e : PyExc),
      store.stats = .error e → (e = .fileNotFoundError ∨ e = .eofError) →
      statsStage store tv = (Reranking.get_stats tv 1).map (fun v => (v, true))) ∧
    (∀ (tv : Mat) (s : Stats) (labels : List Label) (c : Nat),
      Reranking.get_stats tv 1 = .ok (s, labels) → c < tv.ncols →
      (labels.getD c Label.np = Label.p ↔ avgOf tv ≤ (memberCount tv c : ℚ))) := by
  constructor
  · intro store tv e h he
    have hc : statsCaught e = true := by
      rcases he with he | he <;> subst he <;> rfl
    unfold statsStage tryStage
    rw [h]
    simp [hc]
  · intro tv s labels c h hc
    have := get_stats_label_iff tv 1 s labels c h hc
    rwa [one_mul] at this

/-- Witness for C10: a missing stats checkpoint regenerates with coefficient
1 on the synthetic example matrix, where the threshold is the mean 5. -/
theorem C10_witness :
    (storeStatsMiss.stats = .error .fileNotFoundError ∧
      statsStage storeStatsMiss exMat = (Reranking.get_stats exMat 1).map (fun v => (v, true))) ∧
    (([Label.p, Label.np] : List Label).getD 0 Label.np = Label.p ↔
      avgOf exMat ≤ (memberCount exMat 0 : ℚ)) :=
  ⟨⟨rfl, C10_stats_cache_miss_uses_coefficient_one.1 storeStatsMiss exMat
      .fileNotFoundError rfl (Or.inl rfl)⟩,
   C10_stats_cache_miss_uses_coefficient_one.2 exMat ⟨2, [8, 2], 5, 1/2, 1/2⟩
     [Label.p, Label.np] 0 exMat_stats (by decide)⟩

/-! ## Fan-out over prediction files and checkpoint paths -/

/-- One discovered prediction file in the fan-out loop: its loaded
predictions and the checkpoint-load outcomes of its run. -/
structure FileJob where
  preds : List (List ℚ)
  store : Store

/-- Embedding of the sequential fan-out mode of `__main__` (`args.mode == 0`):
a plain `for` loop calling `Reranking.run` once per discovered prediction
file, with no try/except around the call and no failure logging - an
exception raised by one file's run propagates and aborts the loop. -/
def mainSequential (tv : Mat) (st : List Nat) (rOpt : Option Ratios) (oracle : Oracle)
    (ndklF : NdklOracle) (alg : String) (kmax : Nat) :
    List FileJob → Except PyExc (List Trace)
  | [] => .ok []
  | job :: rest =>
    match Reranking.run tv job.preds st rOpt oracle ndklF alg kmax job.store with
    | .error e => .error e
    | .ok t =>
      match mainSequential tv st rOpt oracle ndklF alg kmax rest with
      | .error e => .error e
      | .ok ts => .ok (t :: ts)

/-- The job whose pipeline fails fatally (corrupt rerank checkpoint). -/
def jobBad : FileJob := ⟨[], storeC2⟩

/-- A sibling job that processes fine on its own. -/
def jobGood : FileJob := ⟨[], storeAllOk⟩

/-- C6 counterexample: with the failing file first, the sequential loop
returns the error and the valid sibling file is never processed - even
though processing the sibling alone succeeds.  This refutes the claim that a
fatal error in one file does not prevent the remaining files from being
processed. -/
theorem C6_counterexample_sequential_abort :
    mainSequential ⟨1, [[1]]⟩ [] (some ⟨1, 0⟩) oracleNone ndklZero "det_cons" 2
      [jobBad, jobGood] = .error .parserError ∧
    mainSequential ⟨1, [[1]]⟩ [] (some ⟨1, 0⟩) oracleNone ndklZero "det_cons" 2
      [jobGood] = .ok [⟨[]⟩] := by
  constructor
  · rfl
  · rfl

/-- C6 (amended): in sequential fan-out a fatal error while processing one
file aborts the loop - the error propagates out of the orchestrator
unlogged, and none of the files after the failing one is processed.  (In
parallel mode the pool's `starmap` likewise re-raises the worker exception to
the parent; no mode isolates per-file failures.) -/
theorem C6_amended_sequential_error_aborts_loop
    (tv : Mat) (st : List Nat) (rOpt : Option Ratios) (oracle : Oracle)
    (ndklF : NdklOracle) (alg : String) (kmax : Nat)
    (job : FileJob) (rest : List FileJob) (e : PyExc)
    (h : Reranking.run tv job.preds st rOpt oracle ndklF alg kmax job.store = .error e) :
    mainSequential tv st rOpt oracle ndklF alg kmax (job :: rest) = .error e := by
  unfold mainSequential
  rw [h]

/-- Witness for C6's amended theorem at the concrete failing job. -/
theorem C6_amended_witness :
    Reranking.run ⟨1, [[1]]⟩ [] [] (some ⟨1, 0⟩) oracleNone ndklZero "det_cons" 2
      jobBad.store = .error .parserError ∧
    mainSequential ⟨1, [[1]]⟩ [] (some ⟨1, 0⟩) oracleNone ndklZero "det_cons" 2
      [jobBad, jobGood] = .error .parserError :=
  ⟨rfl,
   C6_amended_sequential_error_aborts_loop ⟨1, [[1]]⟩ [] (some ⟨1, 0⟩) oracleNone
     ndklZero "det_cons" 2 jobBad [jobGood] .parserError rfl⟩

/-- The path `new_output = f'{output}/{os.path.split(fpreds)[-1]}'` of `run`. -/
def newOutputPath (output fpredsBase : String) : String :=
  output ++ "/" ++ fpredsBase

/-- The stats checkpoint path `f'{output}stats.pkl'`. -/
def statsPklPath (output : String) : String := output ++ "stats.pkl"

/-- The labels table path `f'{output}popularity.csv'`. -/
def popularityCsvPath (output : String) : String := output ++ "popularity.csv"

/-- The rerank table path `f'{new_output}.rerank.{algorithm}.{k_max}.csv'`. -/
def rerankCsvPath (newOut algorithm : String) (kmax : Nat) : String :=
  newOut ++ ".rerank." ++ algorithm ++ "." ++ toString kmax ++ ".csv"

/-- The fairness table path `f'{new_output}.faireval.{algorithm}.{k_max}.csv'`. -/
def fairevalCsvPath (newOut algorithm : String) (kmax : Nat) : String :=
  newOut ++ ".faireval." ++ algorithm ++ "." ++ toString kmax ++ ".csv"

/-- The sparse-matrix checkpoint path
`f'{output}reranked.{algorithm}.{k_max}.preds.pkl'` - built from the output
directory alone, with no prediction-file component. -/
def rerankedPredsPath (output algorithm : String) (kmax : Nat) : String :=
  output ++ "reranked." ++ algorithm ++ "." ++ toString kmax ++ ".preds.pkl"

/-- The utility-before table path `f'{new_output}.utilityeval.before.csv'`. -/
def utilityBeforePath (newOut : String) : String :=
  newOut ++ ".utilityeval.before.csv"

/-- The utility-after table path
`f'{new_output}.utilityeval.{algorithm}.{k_max}.after.csv'`. -/
def utilityAfterPath (newOut algorithm : String) (kmax : Nat) : String :=
  newOut ++ ".utilityeval." ++ algorithm ++ "." ++ toString kmax ++ ".after.csv"

/-- Every checkpoint path one prediction file's pipeline reads and writes, as
derived by `run` from the output directory, the prediction file's basename,
the algorithm and `k_max`. -/
def pipelineCheckpointPaths (output fpredsBase algorithm : String) (kmax : Nat) :
    List String :=
  [statsPklPath output, popularityCsvPath output,
   rerankCsvPath (newOutputPath output fpredsBase) algorithm kmax,
   fairevalCsvPath (newOutputPath output fpredsBase) algorithm kmax,
   rerankedPredsPath output algorithm kmax,
   utilityBeforePath (newOutputPath output fpredsBase),
   utilityAfterPath (newOutputPath output fpredsBase) algorithm kmax]

/-- C5: two distinct prediction files under the same output directory with
the same algorithm and k_max share the sparse-matrix checkpoint path
`reranked.det_cons.10.preds.pkl` - the path has no prediction-file component
- while their rerank table paths do differ.  Checkpoint paths are therefore
not injective in (output dir, file, algorithm, k_max): the second file's
pipeline loads or overwrites the first file's reranked predictions. -/
theorem C5_sparse_checkpoint_path_collision :
    rerankedPredsPath "out/rerank/" "det_cons" 10 ∈
      pipelineCheckpointPaths "out/rerank/" "f0.test.pred" "det_cons" 10 ∧
    rerankedPredsPath "out/rerank/" "det_cons" 10 ∈
      pipelineCheckpointPaths "out/rerank/" "f1.test.pred" "det_cons" 10 ∧
    ("f0.test.pred" : String) ≠ "f1.test.pred" ∧
    rerankCsvPath (newOutputPath "out/rerank/" "f0.test.pred") "det_cons" 10 ≠
      rerankCsvPath (newOutputPath "out/rerank/" "f1.test.pred") "det_cons" 10 := by
  refine ⟨?_, ?_, by decide, by decide⟩
  · simp [pipelineCheckpointPaths]
  · simp [pipelineCheckpointPaths]
